import Mathlib

/-!
Verification of the strongSwan charon signal bus (src/charon/bus/bus.h).

The repository provides the interface of the bus: the signal and level
enumerations, the SIG_TYPE classification macro, and the declarations of
the bus operations (add_listener, listen, set_listen_state, set_sa,
signal, vsignal, destroy).  The enumerations and the macro are embedded
directly from the source.  The behaviour of the operations (passive
dispatch, the active-listener barrier, the per-thread SA context store,
teardown) is only declared in the header, so it is modelled from the
specification as a labelled transition system over bus states, and the
claimed properties are proved as trace properties of that system.
-/

/-! ## Signal taxonomy, embedded from enum signal_t in bus.h -/

def SIG_ANY : Int := 0
def DBG_DMN : Int := 1
def DBG_MGR : Int := 2
def DBG_IKE : Int := 3
def DBG_CHD : Int := 4
def DBG_JOB : Int := 5
def DBG_CFG : Int := 6
def DBG_KNL : Int := 7
def DBG_NET : Int := 8
def DBG_ENC : Int := 9
def DBG_LIB : Int := 10
def DBG_MAX : Int := 11
def IKE_UP_START : Int := 12
def IKE_UP_SUCCESS : Int := 13
def IKE_UP_FAILED : Int := 14
def IKE_DOWN_START : Int := 15
def IKE_DOWN_SUCCESS : Int := 16
def IKE_DOWN_FAILED : Int := 17
def IKE_REKEY_START : Int := 18
def IKE_REKEY_SUCCESS : Int := 19
def IKE_REKEY_FAILED : Int := 20
def CHILD_UP_START : Int := 21
def CHILD_UP_SUCCESS : Int := 22
def CHILD_UP_FAILED : Int := 23
def CHILD_DOWN_START : Int := 24
def CHILD_DOWN_SUCCESS : Int := 25
def CHILD_DOWN_FAILED : Int := 26
def CHILD_REKEY_START : Int := 27
def CHILD_REKEY_SUCCESS : Int := 28
def CHILD_REKEY_FAILED : Int := 29
def CHILD_ROUTE_START : Int := 30
def CHILD_ROUTE_SUCCESS : Int := 31
def CHILD_ROUTE_FAILED : Int := 32
def CHILD_UNROUTE_START : Int := 33
def CHILD_UNROUTE_SUCCESS : Int := 34
def CHILD_UNROUTE_FAILED : Int := 35
def SIG_MAX : Int := 36

/-- Embedding of the macro SIG_TYPE from bus.h:
`SIG_TYPE(sig) (sig > DBG_MAX ? SIG_ANY : sig)`. -/
def SIG_TYPE (sig : Int) : Int :=
  if sig > DBG_MAX then SIG_ANY else sig

/-! ## Levels, embedded from enum level_t in bus.h -/

def LEVEL_0 : Int := 0
def LEVEL_1 : Int := 1
def LEVEL_2 : Int := 2
def LEVEL_3 : Int := 3
def LEVEL_4 : Int := 4
def LEVEL_SILENT : Int := -1
def LEVEL_AUDIT : Int := LEVEL_0
def LEVEL_CTRL : Int := LEVEL_1
def LEVEL_CTRLMORE : Int := LEVEL_2
def LEVEL_RAW : Int := LEVEL_3
def LEVEL_PRIVATE : Int := LEVEL_4

/-- The members of enum level_t, in declaration order of their values. -/
def level_t_values : List Int :=
  [LEVEL_SILENT, LEVEL_0, LEVEL_1, LEVEL_2, LEVEL_3, LEVEL_4]

/-- Modelled from the spec: `eligible(level) -> bool` returns false iff
level == SILENT.  The implementation of the gate is not part of the
given source (only the header is), so the gate follows section 4.1 of
the specification. -/
def eligible (level : Int) : Bool :=
  level != LEVEL_SILENT

/-! ## Events and observable labels

An Event carries the fields handed to bus_listener_t.signal and
returned by bus_t.listen: the signal kind, the verbosity level, the
identity of the emitting thread, the IKE_SA bound by that thread (or
none), and the format string with its argument list.  Opaque handles
(ike_sa_t pointers) are modelled as natural numbers. -/

structure Event where
  signal : Int
  level : Int
  thread : Nat
  ike_sa : Option Nat
  format : String
  args : List String
deriving DecidableEq, Repr

/-- Observable actions of the bus model.  Emissions are tagged with a
serial number so that distinct emissions of equal Events stay
distinguishable in a trace. -/
inductive Label where
  /-- add_listener registered the passive listener with this identity. -/
  | addedListener (l : Nat) : Label
  /-- set_listen_state was called by thread t with the given flag. -/
  | setActive (t : Nat) (b : Bool) : Label
  /-- set_sa was called by thread t with the given handle (none clears). -/
  | boundSa (t : Nat) (h : Option Nat) : Label
  /-- an eligible signal/vsignal call by the emitter began emission
  number id of the given Event; the label records the snapshot of the
  must-wait set and of the registered passive listeners taken at that
  moment. -/
  | emitStart (id : Nat) (emitter : Nat) (e : Event) (snap : List Nat)
      (regs : List Nat) : Label
  /-- passive listener l received the Event of emission id. -/
  | delivered (id : Nat) (l : Nat) (e : Event) : Label
  /-- thread t called listen() and blocked. -/
  | listenEnter (t : Nat) : Label
  /-- the listen() call of thread t returned the Event of emission id. -/
  | listened (id : Nat) (t : Nat) (e : Event) : Label
  /-- the signal/vsignal call of emission id returned to the emitter. -/
  | emitReturn (id : Nat) (emitter : Nat) : Label
  /-- a signal/vsignal call with LEVEL_SILENT returned at once,
  delivering nothing. -/
  | silentReturn (t : Nat) (sig : Int) (format : String)
      (args : List String) : Label
  /-- destroy tore the bus down. -/
  | busDestroyed : Label
  /-- after destroy, the listen() call of blocked thread t returned
  the terminal sentinel instead of an Event. -/
  | releasedSentinel (t : Nat) : Label
deriving DecidableEq, Repr

/-! ## Bus state -/

/-- Modelled from the spec: the in-flight emission record of the
Active-Listener Coordinator.  `snapshot` is the must-wait set taken
when the emission began; `toDispatch` the passive listeners still to
be invoked; `pending` the snapshot members that have not yet consumed
the Event through listen(). -/
structure Inflight where
  id : Nat
  emitter : Nat
  event : Event
  snapshot : List Nat
  toDispatch : List Nat
  pending : List Nat
deriving DecidableEq, Repr

/-- Modelled from the spec: the state of the bus.  The implementation
behind bus_t is not part of the given source, so the state holds the
components named by the specification: the ordered passive listener
registry, the must-wait set of set_listen_state, the per-thread SA
binding of set_sa, the threads currently blocked in listen(), the
single in-flight emission, an emission serial counter, and the
destroyed flag. -/
structure Bus where
  listeners : List Nat
  activeSet : List Nat
  saOf : Nat → Option Nat
  waiting : List Nat
  inflight : Option Inflight
  counter : Nat
  destroyed : Bool

/-- Insert a thread into the must-wait set if absent; set_listen_state
TRUE is idempotent. -/
def addIfAbsent (t : Nat) (l : List Nat) : List Nat :=
  if t ∈ l then l else t :: l

/-- Modelled from the spec: one atomic transition of the bus, labelled
with what the daemon observes.  Emissions are serialized bus-wide, so
an eligible emission occupies the single in-flight slot from its start
label to its return label; passive dispatch steps precede barrier pull
steps because pulls require the dispatch list to be exhausted; the
emitting call returns only once every snapshot member has pulled. -/
inductive Step : Bus → Label → Bus → Prop where
  | addListener (s : Bus) (l : Nat) :
      s.destroyed = false →
      Step s (.addedListener l) { s with listeners := s.listeners ++ [l] }
  | setActiveTrue (s : Bus) (t : Nat) :
      Step s (.setActive t true) { s with activeSet := addIfAbsent t s.activeSet }
  | setActiveFalse (s : Bus) (t : Nat) :
      Step s (.setActive t false) { s with activeSet := s.activeSet.erase t }
  | setSa (s : Bus) (t : Nat) (h : Option Nat) :
      Step s (.boundSa t h) { s with saOf := fun u => if u = t then h else s.saOf u }
  | listenEnter (s : Bus) (t : Nat) :
      t ∉ s.waiting →
      Step s (.listenEnter t) { s with waiting := t :: s.waiting }
  | emitSilent (s : Bus) (t : Nat) (sig : Int) (format : String) (args : List String) :
      s.destroyed = false →
      Step s (.silentReturn t sig format args) s
  | emitStart (s : Bus) (t : Nat) (sig lvl : Int) (format : String) (args : List String) :
      s.destroyed = false → s.inflight = none → lvl ≠ LEVEL_SILENT →
      Step s (.emitStart s.counter t ⟨sig, lvl, t, s.saOf t, format, args⟩
                s.activeSet s.listeners)
        { s with
            inflight := some ⟨s.counter, t, ⟨sig, lvl, t, s.saOf t, format, args⟩,
              s.activeSet, s.listeners, s.activeSet⟩,
            counter := s.counter + 1 }
  | dispatchStep (s : Bus) (i : Inflight) (l : Nat) (rest : List Nat) :
      s.inflight = some i → i.toDispatch = l :: rest →
      Step s (.delivered i.id l i.event)
        { s with inflight := some { i with toDispatch := rest } }
  | pull (s : Bus) (i : Inflight) (t : Nat) :
      s.inflight = some i → i.toDispatch = [] → t ∈ i.pending → t ∈ s.waiting →
      s.destroyed = false →
      Step s (.listened i.id t i.event)
        { s with inflight := some { i with pending := i.pending.erase t },
                 waiting := s.waiting.erase t }
  | emitReturn (s : Bus) (i : Inflight) :
      s.inflight = some i → i.toDispatch = [] → i.pending = [] →
      Step s (.emitReturn i.id i.emitter) { s with inflight := none }
  | destroy (s : Bus) :
      s.destroyed = false →
      Step s .busDestroyed { s with destroyed := true }
  | release (s : Bus) (t : Nat) :
      s.destroyed = true → t ∈ s.waiting →
      Step s (.releasedSentinel t) { s with waiting := s.waiting.erase t }

/-- A finite execution of the bus, collecting the labels in order. -/
inductive Trace : Bus → List Label → Bus → Prop where
  | refl (s : Bus) : Trace s [] s
  | step {s s₁ s₂ : Bus} {l : Label} {tr : List Label} :
      Step s l s₁ → Trace s₁ tr s₂ → Trace s (l :: tr) s₂

/-- State invariant: the must-wait set holds each thread once, and an
in-flight emission has a serial below the counter, pending members
drawn from its snapshot without duplicates, and an eligible level. -/
def BusInv (s : Bus) : Prop :=
  s.activeSet.Nodup ∧
  ∀ i, s.inflight = some i →
    i.id < s.counter ∧ (∀ t ∈ i.pending, t ∈ i.snapshot) ∧
    i.pending.Nodup ∧ i.event.level ≠ LEVEL_SILENT

/-- The listen() results of emission id recorded in a trace, as pairs
of the pulling thread and the Event the call returned. -/
def pullsOf (id : Nat) (tr : List Label) : List (Nat × Event) :=
  tr.filterMap fun l => match l with
    | .listened id2 t e => if id2 = id then some (t, e) else none
    | _ => none

/-- The passive deliveries of emission id recorded in a trace, as pairs
of the invoked listener and the Event it received. -/
def delivsOf (id : Nat) (tr : List Label) : List (Nat × Event) :=
  tr.filterMap fun l => match l with
    | .delivered id2 l2 e => if id2 = id then some (l2, e) else none
    | _ => none

/-! ## Function-level model of one serialized signal/vsignal call

bus_t.signal and bus_t.vsignal are declared void: no error is ever
returned.  To make that checkable the call is embedded in Except, with
an error constructor available but never used. -/

/-- Modelled from the spec: the labels of the passive dispatch phase,
one delivery per registered listener, in registration order. -/
def dispatchAll (regs : List Nat) (id : Nat) (e : Event) : List Label :=
  regs.map fun l => .delivered id l e

/-- Modelled from the spec: the labels of the barrier phase, one
completed listen() per snapshot member. -/
def barrierAll (snap : List Nat) (id : Nat) (e : Event) : List Label :=
  snap.map fun t => .listened id t e

/-- Modelled from the spec: a full serialized bus_t.signal call by
thread t: eligibility gate, Event construction with the calling
thread identity and its bound SA, passive dispatch, barrier, return.
The Except layer shows the call has no failure path. -/
def signalCall (s : Bus) (t : Nat) (sig lvl : Int) (format : String)
    (args : List String) : Except String (Bus × List Label) :=
  if s.destroyed then .ok (s, [])
  else if lvl = LEVEL_SILENT then .ok (s, [.silentReturn t sig format args])
  else
    let e : Event := ⟨sig, lvl, t, s.saOf t, format, args⟩
    .ok ({ s with counter := s.counter + 1 },
      .emitStart s.counter t e s.activeSet s.listeners ::
        dispatchAll s.listeners s.counter e ++ barrierAll s.activeSet s.counter e ++
          [.emitReturn s.counter t])

/-- Modelled from the spec: bus_t.vsignal is bus_t.signal with the
argument list already collected into a va_list; same behaviour. -/
def vsignalCall (s : Bus) (t : Nat) (sig lvl : Int) (format : String)
    (args : List String) : Except String (Bus × List Label) :=
  signalCall s t sig lvl format args

/-! ## Basic lemmas about pull and delivery projections -/

theorem pullsOf_nil (id : Nat) : pullsOf id [] = [] := rfl

theorem delivsOf_nil (id : Nat) : delivsOf id [] = [] := rfl

theorem pullsOf_cons_listened_self (id t : Nat) (e : Event) (tr : List Label) :
    pullsOf id (.listened id t e :: tr) = (t, e) :: pullsOf id tr := by
  simp [pullsOf, List.filterMap_cons]

theorem pullsOf_cons_listened (id id2 t : Nat) (e : Event) (tr : List Label) :
    pullsOf id (.listened id2 t e :: tr) =
      (if id2 = id then [(t, e)] else []) ++ pullsOf id tr := by
  by_cases h : id2 = id <;> simp [pullsOf, List.filterMap_cons, h]

theorem pullsOf_cons_other (id : Nat) (l : Label) (tr : List Label)
    (h : ∀ id2 t e, l ≠ .listened id2 t e) :
    pullsOf id (l :: tr) = pullsOf id tr := by
  cases l <;> simp [pullsOf, List.filterMap_cons]
  case listened id2 t e => exact absurd rfl (h id2 t e)

theorem delivsOf_cons_delivered (id id2 l2 : Nat) (e : Event) (tr : List Label) :
    delivsOf id (.delivered id2 l2 e :: tr) =
      (if id2 = id then [(l2, e)] else []) ++ delivsOf id tr := by
  by_cases h : id2 = id <;> simp [delivsOf, List.filterMap_cons, h]

theorem delivsOf_cons_other (id : Nat) (l : Label) (tr : List Label)
    (h : ∀ id2 l2 e, l ≠ .delivered id2 l2 e) :
    delivsOf id (l :: tr) = delivsOf id tr := by
  cases l <;> simp [delivsOf, List.filterMap_cons]
  case delivered id2 l2 e => exact absurd rfl (h id2 l2 e)

theorem pullsOf_append (id : Nat) (a b : List Label) :
    pullsOf id (a ++ b) = pullsOf id a ++ pullsOf id b := by
  simp [pullsOf, List.filterMap_append]

theorem delivsOf_append (id : Nat) (a b : List Label) :
    delivsOf id (a ++ b) = delivsOf id a ++ delivsOf id b := by
  simp [delivsOf, List.filterMap_append]

theorem mem_pullsOf_of_listened {id t : Nat} {e : Event} {tr : List Label}
    (h : Label.listened id t e ∈ tr) : (t, e) ∈ pullsOf id tr := by
  induction tr with
  | nil => cases h
  | cons l rest ih =>
      rcases List.mem_cons.mp h with h1 | h2
      · subst h1; simp [pullsOf_cons_listened_self]
      · have := ih h2
        cases l with
        | listened id2 t2 e2 =>
            rw [pullsOf_cons_listened]
            exact List.mem_append_right _ this
        | _ => simpa [pullsOf, List.filterMap_cons] using this

theorem listened_of_mem_pullsOf {id t : Nat} {e : Event} {tr : List Label}
    (h : (t, e) ∈ pullsOf id tr) : Label.listened id t e ∈ tr := by
  induction tr with
  | nil => cases h
  | cons l rest ih =>
      cases l with
      | listened id2 t2 e2 =>
          rw [pullsOf_cons_listened] at h
          rcases List.mem_append.mp h with h1 | h2
          · by_cases hid : id2 = id
            · simp [hid] at h1
              rcases h1 with ⟨h1, h2⟩
              subst hid h1 h2
              exact List.mem_cons_self _ _
            · simp [hid] at h1
          · exact List.mem_cons_of_mem _ (ih h2)
      | _ =>
          rw [pullsOf_cons_other] at h
          · exact List.mem_cons_of_mem _ (ih h)
          · intro id2 t2 e2 hne; cases hne

theorem delivered_of_mem_delivsOf {id l2 : Nat} {e : Event} {tr : List Label}
    (h : (l2, e) ∈ delivsOf id tr) : Label.delivered id l2 e ∈ tr := by
  induction tr with
  | nil => cases h
  | cons l rest ih =>
      cases l with
      | delivered id2 l3 e2 =>
          rw [delivsOf_cons_delivered] at h
          rcases List.mem_append.mp h with h1 | h2
          · by_cases hid : id2 = id
            · simp [hid] at h1
              rcases h1 with ⟨h1, h2⟩
              subst hid h1 h2
              exact List.mem_cons_self _ _
            · simp [hid] at h1
          · exact List.mem_cons_of_mem _ (ih h2)
      | _ =>
          rw [delivsOf_cons_other] at h
          · exact List.mem_cons_of_mem _ (ih h)
          · intro id2 l3 e2 hne; cases hne

theorem pullsOf_eq_nil_of_no_listened {id : Nat} {tr : List Label}
    (h : ∀ t e, Label.listened id t e ∉ tr) : pullsOf id tr = [] := by
  induction tr with
  | nil => rfl
  | cons l rest ih =>
      have hrest : ∀ t e, Label.listened id t e ∉ rest := by
        intro t e hmem
        exact h t e (List.mem_cons_of_mem _ hmem)
      cases l with
      | listened id2 t2 e2 =>
          rw [pullsOf_cons_listened]
          have : id2 ≠ id := by
            intro heq; subst heq
            exact h t2 e2 (List.mem_cons_self _ _)
          simp [this, ih hrest]
      | _ =>
          rw [pullsOf_cons_other]
          · exact ih hrest
          · intro id2 t2 e2 hne; cases hne

theorem delivsOf_eq_nil_of_no_delivered {id : Nat} {tr : List Label}
    (h : ∀ l2 e, Label.delivered id l2 e ∉ tr) : delivsOf id tr = [] := by
  induction tr with
  | nil => rfl
  | cons l rest ih =>
      have hrest : ∀ l2 e, Label.delivered id l2 e ∉ rest := by
        intro l2 e hmem
        exact h l2 e (List.mem_cons_of_mem _ hmem)
      cases l with
      | delivered id2 l3 e2 =>
          rw [delivsOf_cons_delivered]
          have : id2 ≠ id := by
            intro heq; subst heq
            exact h l3 e2 (List.mem_cons_self _ _)
          simp [this, ih hrest]
      | _ =>
          rw [delivsOf_cons_other]
          · exact ih hrest
          · intro id2 l3 e2 hne; cases hne

/-! ## Step-level preservation lemmas -/

theorem Step.counter_mono {s s' : Bus} {l : Label} (h : Step s l s') :
    s.counter ≤ s'.counter := by
  cases h <;> simp

theorem Step.destroyed_mono {s s' : Bus} {l : Label} (h : Step s l s')
    (hd : s.destroyed = true) : s'.destroyed = true := by
  cases h <;> simp_all

theorem BusInv.step {s s' : Bus} {l : Label} (hw : BusInv s) (h : Step s l s') :
    BusInv s' := by
  obtain ⟨hnd, hin⟩ := hw
  cases h with
  | addListener l hd => exact ⟨hnd, by simpa using hin⟩
  | setActiveTrue t =>
      refine ⟨?_, by simpa using hin⟩
      unfold addIfAbsent
      split
      · exact hnd
      · exact List.Nodup.cons (by assumption) hnd
  | setActiveFalse t => exact ⟨hnd.erase t, by simpa using hin⟩
  | setSa t h => exact ⟨hnd, by simpa using hin⟩
  | listenEnter t hmem => exact ⟨hnd, by simpa using hin⟩
  | emitSilent t sig format args hd => exact ⟨hnd, hin⟩
  | emitStart t sig lvl format args hd hnone hlvl =>
      refine ⟨hnd, ?_⟩
      intro i hi
      simp at hi
      subst hi
      exact ⟨Nat.lt_succ_self s.counter, fun t ht => ht, hnd, hlvl⟩
  | dispatchStep i l rest hi hto =>
      refine ⟨hnd, ?_⟩
      intro i2 hi2
      simp at hi2
      subst hi2
      obtain ⟨h1, h2, h3, h4⟩ := hin i hi
      exact ⟨h1, h2, h3, h4⟩
  | pull i t hi hto hp hwait hd =>
      refine ⟨hnd, ?_⟩
      intro i2 hi2
      simp at hi2
      subst hi2
      obtain ⟨h1, h2, h3, h4⟩ := hin i hi
      refine ⟨h1, ?_, h3.erase t, h4⟩
      intro u hu
      exact h2 u (List.mem_of_mem_erase hu)
  | emitReturn i hi hto hp =>
      refine ⟨hnd, ?_⟩
      intro i2 hi2
      simp at hi2
  | destroy hd => exact ⟨hnd, by simpa using hin⟩
  | release t hd hw => exact ⟨hnd, by simpa using hin⟩

theorem BusInv.trace {s s' : Bus} {tr : List Label} (htr : Trace s tr s')
    (hw : BusInv s) : BusInv s' := by
  induction htr with
  | refl s => exact hw
  | step hstep htr ih => exact ih (hw.step hstep)

/-- Reduction lemmas: labels other than listened and delivered add
nothing to the pull and delivery projections. -/
@[simp] theorem pullsOf_addedListener (id l : Nat) (tr : List Label) :
    pullsOf id (.addedListener l :: tr) = pullsOf id tr := rfl

@[simp] theorem pullsOf_setActive (id t : Nat) (b : Bool) (tr : List Label) :
    pullsOf id (.setActive t b :: tr) = pullsOf id tr := rfl

@[simp] theorem pullsOf_boundSa (id t : Nat) (h : Option Nat) (tr : List Label) :
    pullsOf id (.boundSa t h :: tr) = pullsOf id tr := rfl

@[simp] theorem pullsOf_emitStart (id id2 em : Nat) (e : Event)
    (snap regs : List Nat) (tr : List Label) :
    pullsOf id (.emitStart id2 em e snap regs :: tr) = pullsOf id tr := rfl

@[simp] theorem pullsOf_delivered (id id2 l : Nat) (e : Event) (tr : List Label) :
    pullsOf id (.delivered id2 l e :: tr) = pullsOf id tr := rfl

@[simp] theorem pullsOf_listenEnter (id t : Nat) (tr : List Label) :
    pullsOf id (.listenEnter t :: tr) = pullsOf id tr := rfl

@[simp] theorem pullsOf_emitReturn (id id2 em : Nat) (tr : List Label) :
    pullsOf id (.emitReturn id2 em :: tr) = pullsOf id tr := rfl

@[simp] theorem pullsOf_silentReturn (id t : Nat) (sig : Int) (format : String)
    (args : List String) (tr : List Label) :
    pullsOf id (.silentReturn t sig format args :: tr) = pullsOf id tr := rfl

@[simp] theorem pullsOf_busDestroyed (id : Nat) (tr : List Label) :
    pullsOf id (.busDestroyed :: tr) = pullsOf id tr := rfl

@[simp] theorem pullsOf_releasedSentinel (id t : Nat) (tr : List Label) :
    pullsOf id (.releasedSentinel t :: tr) = pullsOf id tr := rfl

@[simp] theorem delivsOf_addedListener (id l : Nat) (tr : List Label) :
    delivsOf id (.addedListener l :: tr) = delivsOf id tr := rfl

@[simp] theorem delivsOf_setActive (id t : Nat) (b : Bool) (tr : List Label) :
    delivsOf id (.setActive t b :: tr) = delivsOf id tr := rfl

@[simp] theorem delivsOf_boundSa (id t : Nat) (h : Option Nat) (tr : List Label) :
    delivsOf id (.boundSa t h :: tr) = delivsOf id tr := rfl

@[simp] theorem delivsOf_emitStart (id id2 em : Nat) (e : Event)
    (snap regs : List Nat) (tr : List Label) :
    delivsOf id (.emitStart id2 em e snap regs :: tr) = delivsOf id tr := rfl

@[simp] theorem delivsOf_listened (id id2 t : Nat) (e : Event) (tr : List Label) :
    delivsOf id (.listened id2 t e :: tr) = delivsOf id tr := rfl

@[simp] theorem delivsOf_listenEnter (id t : Nat) (tr : List Label) :
    delivsOf id (.listenEnter t :: tr) = delivsOf id tr := rfl

@[simp] theorem delivsOf_emitReturn (id id2 em : Nat) (tr : List Label) :
    delivsOf id (.emitReturn id2 em :: tr) = delivsOf id tr := rfl

@[simp] theorem delivsOf_silentReturn (id t : Nat) (sig : Int) (format : String)
    (args : List String) (tr : List Label) :
    delivsOf id (.silentReturn t sig format args :: tr) = delivsOf id tr := rfl

@[simp] theorem delivsOf_busDestroyed (id : Nat) (tr : List Label) :
    delivsOf id (.busDestroyed :: tr) = delivsOf id tr := rfl

@[simp] theorem delivsOf_releasedSentinel (id t : Nat) (tr : List Label) :
    delivsOf id (.releasedSentinel t :: tr) = delivsOf id tr := rfl

/-- Once an emission serial is strictly below the counter and no longer
in flight, no further labels of that emission can occur: its pulls and
deliveries are over and its return cannot repeat. -/
theorem dead_id {s s2 : Bus} {tr : List Label} (htr : Trace s tr s2) :
    ∀ id, BusInv s → id < s.counter →
    (∀ j, s.inflight = some j → j.id ≠ id) →
    pullsOf id tr = [] ∧ delivsOf id tr = [] ∧
      (∀ x, Label.emitReturn id x ∉ tr) := by
  induction htr with
  | refl s =>
      intro id hw hc hj
      exact ⟨rfl, rfl, fun x => List.not_mem_nil _⟩
  | step hstep htr ih =>
      rename_i s s₁ s₂ lab tr'
      intro id hw hc hj
      have hw1 := hw.step hstep
      have hc1 := lt_of_lt_of_le hc hstep.counter_mono
      cases hstep with
      | addListener l2 hd =>
          obtain ⟨hp, hdel, hr⟩ := ih id hw1 hc1 (by simpa using hj)
          refine ⟨by simpa using hp, by simpa using hdel, ?_⟩
          intro x hx
          rcases List.mem_cons.mp hx with h | h
          · cases h
          · exact hr x h
      | setActiveTrue t =>
          obtain ⟨hp, hdel, hr⟩ := ih id hw1 hc1 (by simpa using hj)
          refine ⟨by simpa using hp, by simpa using hdel, ?_⟩
          intro x hx
          rcases List.mem_cons.mp hx with h | h
          · cases h
          · exact hr x h
      | setActiveFalse t =>
          obtain ⟨hp, hdel, hr⟩ := ih id hw1 hc1 (by simpa using hj)
          refine ⟨by simpa using hp, by simpa using hdel, ?_⟩
          intro x hx
          rcases List.mem_cons.mp hx with h | h
          · cases h
          · exact hr x h
      | setSa t h =>
          obtain ⟨hp, hdel, hr⟩ := ih id hw1 hc1 (by simpa using hj)
          refine ⟨by simpa using hp, by simpa using hdel, ?_⟩
          intro x hx
          rcases List.mem_cons.mp hx with h | h
          · cases h
          · exact hr x h
      | listenEnter t hmem =>
          obtain ⟨hp, hdel, hr⟩ := ih id hw1 hc1 (by simpa using hj)
          refine ⟨by simpa using hp, by simpa using hdel, ?_⟩
          intro x hx
          rcases List.mem_cons.mp hx with h | h
          · cases h
          · exact hr x h
      | emitSilent t sig format args hd =>
          obtain ⟨hp, hdel, hr⟩ := ih id hw1 hc1 (by simpa using hj)
          refine ⟨by simpa using hp, by simpa using hdel, ?_⟩
          intro x hx
          rcases List.mem_cons.mp hx with h | h
          · cases h
          · exact hr x h
      | emitStart t sig lvl format args hd hnone hlvl =>
          have hj1 : ∀ j : Inflight,
              some (⟨s.counter, t, ⟨sig, lvl, t, s.saOf t, format, args⟩,
                s.activeSet, s.listeners, s.activeSet⟩ : Inflight) = some j →
              j.id ≠ id := by
            intro j hj2
            rw [Option.some_inj] at hj2
            subst hj2
            show s.counter ≠ id
            omega
          obtain ⟨hp, hdel, hr⟩ := ih id hw1 hc1 (by simpa using hj1)
          refine ⟨by simpa using hp, by simpa using hdel, ?_⟩
          intro x hx
          rcases List.mem_cons.mp hx with h | h
          · cases h
          · exact hr x h
      | dispatchStep i l2 rest hi hto =>
          have hne : i.id ≠ id := hj i hi
          have hj1 : ∀ j : Inflight,
              some ({ i with toDispatch := rest } : Inflight) = some j → j.id ≠ id := by
            intro j hj2
            rw [Option.some_inj] at hj2
            subst hj2
            exact hne
          obtain ⟨hp, hdel, hr⟩ := ih id hw1 hc1 (by simpa using hj1)
          refine ⟨by simpa using hp, ?_, ?_⟩
          · rw [delivsOf_cons_delivered]
            simp [hne, hdel]
          · intro x hx
            rcases List.mem_cons.mp hx with h | h
            · cases h
            · exact hr x h
      | pull i t hi hto hpend hwait hd =>
          have hne : i.id ≠ id := hj i hi
          have hj1 : ∀ j : Inflight,
              some ({ i with pending := i.pending.erase t } : Inflight) = some j →
              j.id ≠ id := by
            intro j hj2
            rw [Option.some_inj] at hj2
            subst hj2
            exact hne
          obtain ⟨hp, hdel, hr⟩ := ih id hw1 hc1 (by simpa using hj1)
          refine ⟨?_, by simpa using hdel, ?_⟩
          · rw [pullsOf_cons_listened]
            simp [hne, hp]
          · intro x hx
            rcases List.mem_cons.mp hx with h | h
            · cases h
            · exact hr x h
      | emitReturn i hi hto hpend =>
          have hne : i.id ≠ id := hj i hi
          obtain ⟨hp, hdel, hr⟩ := ih id hw1 hc1 (by intro j hj2; cases hj2)
          refine ⟨by simpa using hp, by simpa using hdel, ?_⟩
          intro x hx
          rcases List.mem_cons.mp hx with h | h
          · injection h with h1 h2
            exact hne h1.symm
          · exact hr x h
      | destroy hd =>
          obtain ⟨hp, hdel, hr⟩ := ih id hw1 hc1 (by simpa using hj)
          refine ⟨by simpa using hp, by simpa using hdel, ?_⟩
          intro x hx
          rcases List.mem_cons.mp hx with h | h
          · cases h
          · exact hr x h
      | release t hd hwmem =>
          obtain ⟨hp, hdel, hr⟩ := ih id hw1 hc1 (by simpa using hj)
          refine ⟨by simpa using hp, by simpa using hdel, ?_⟩
          intro x hx
          rcases List.mem_cons.mp hx with h | h
          · cases h
          · exact hr x h

/-- While the emission described by i is still in flight at the end of
a trace: the deliveries so far are an in-order prefix of its dispatch
list, every pull so far consumed exactly this Event and came from the
pending snapshot members, each snapshot member has pulled at most once
(exactly once iff it left the pending set), and the emitting call has
not returned. -/
@[reducible] def ActiveFact (i : Inflight) (tr : List Label) (fin : Option Inflight) : Prop :=
  ∃ i2 : Inflight, fin = some i2 ∧ i2.id = i.id ∧ i2.emitter = i.emitter ∧
    i2.event = i.event ∧ i2.snapshot = i.snapshot ∧
    (∃ ds, i.toDispatch = ds ++ i2.toDispatch ∧
       delivsOf i.id tr = ds.map fun l => (l, i.event)) ∧
    (∀ p ∈ pullsOf i.id tr, p.1 ∈ i.pending ∧ p.2 = i.event) ∧
    (∀ t, t ∈ i2.pending → t ∈ i.pending) ∧
    (∀ t ∈ i.pending, (pullsOf i.id tr).count (t, i.event) =
        if t ∈ i2.pending then 0 else 1) ∧
    (∀ id2 t e, Label.listened id2 t e ∈ tr → id2 = i.id) ∧
    (∀ id2 l e, Label.delivered id2 l e ∈ tr → id2 = i.id) ∧
    (∀ x, Label.emitReturn i.id x ∉ tr)

/-- The emission described by i completed within the trace: the trace
splits at the return of the emitting call; before it, every registered
listener of the dispatch list was invoked exactly once in order, every
pending snapshot member completed exactly one listen() returning
exactly this Event, all pulls came from pending members and carried
this Event, and all deliveries preceded all pulls; after the return no
further label of this emission occurs. -/
@[reducible] def DoneFact (i : Inflight) (tr : List Label) : Prop :=
  ∃ tr1 tr2, tr = tr1 ++ Label.emitReturn i.id i.emitter :: tr2 ∧
    delivsOf i.id tr1 = i.toDispatch.map (fun l => (l, i.event)) ∧
    (∀ p ∈ pullsOf i.id tr1, p.1 ∈ i.pending ∧ p.2 = i.event) ∧
    (∀ t ∈ i.pending, (pullsOf i.id tr1).count (t, i.event) = 1) ∧
    (∀ id2 t e, Label.listened id2 t e ∈ tr1 → id2 = i.id) ∧
    (∀ id2 l e, Label.delivered id2 l e ∈ tr1 → id2 = i.id) ∧
    (∀ x, Label.emitReturn i.id x ∉ tr1) ∧
    (∃ d b, tr1 = d ++ b ∧ pullsOf i.id d = [] ∧ delivsOf i.id b = []) ∧
    pullsOf i.id tr2 = [] ∧ delivsOf i.id tr2 = [] ∧
    (∀ x, Label.emitReturn i.id x ∉ tr2)

/-- Prepending a label that is no pull, delivery or return of the
in-flight emission preserves both disjuncts. -/
theorem neutral_cons {i : Inflight} {lab : Label} {tr : List Label}
    {fin : Option Inflight}
    (hpu : ∀ rest, pullsOf i.id (lab :: rest) = pullsOf i.id rest)
    (hde : ∀ rest, delivsOf i.id (lab :: rest) = delivsOf i.id rest)
    (hnl : ∀ id2 t e, lab ≠ Label.listened id2 t e)
    (hnd : ∀ id2 l e, lab ≠ Label.delivered id2 l e)
    (hnr : ∀ x, lab ≠ Label.emitReturn i.id x)
    (h : ActiveFact i tr fin ∨ DoneFact i tr) :
    ActiveFact i (lab :: tr) fin ∨ DoneFact i (lab :: tr) := by
  rcases h with ⟨i2, h1, h2, h3, h4, h5, ⟨ds, hds1, hds2⟩, h7, h8, h9, h10, h11, h12⟩ |
    ⟨tr1, tr2, heq, hd1, hp1, hc1, hl1, hdl1, hr1, ⟨d, b, hsp, hspd, hspb⟩, hp2, hd2, hr2⟩
  · left
    refine ⟨i2, h1, h2, h3, h4, h5, ⟨ds, hds1, ?_⟩, ?_, h8, ?_, ?_, ?_, ?_⟩
    · rw [hde]; exact hds2
    · rw [hpu]; exact h7
    · intro t ht; rw [hpu]; exact h9 t ht
    · intro id2 t e hmem
      rcases List.mem_cons.mp hmem with hh | hh
      · exact absurd hh.symm (hnl id2 t e)
      · exact h10 id2 t e hh
    · intro id2 l e hmem
      rcases List.mem_cons.mp hmem with hh | hh
      · exact absurd hh.symm (hnd id2 l e)
      · exact h11 id2 l e hh
    · intro x hx
      rcases List.mem_cons.mp hx with hh | hh
      · exact absurd hh.symm (hnr x)
      · exact h12 x hh
  · right
    refine ⟨lab :: tr1, tr2, by rw [heq, List.cons_append], ?_, ?_, ?_, ?_, ?_, ?_,
      ⟨lab :: d, b, by rw [hsp, List.cons_append], by rw [hpu]; exact hspd, hspb⟩,
      hp2, hd2, hr2⟩
    · rw [hde]; exact hd1
    · rw [hpu]; exact hp1
    · intro t ht; rw [hpu]; exact hc1 t ht
    · intro id2 t e hmem
      rcases List.mem_cons.mp hmem with hh | hh
      · exact absurd hh.symm (hnl id2 t e)
      · exact hl1 id2 t e hh
    · intro id2 l e hmem
      rcases List.mem_cons.mp hmem with hh | hh
      · exact absurd hh.symm (hnd id2 l e)
      · exact hdl1 id2 l e hh
    · intro x hx
      rcases List.mem_cons.mp hx with hh | hh
      · exact absurd hh.symm (hnr x)
      · exact hr1 x hh

/-- Master lemma of the Active-Listener Coordinator: in every trace
from a state with an emission in flight, the emission either remains
in flight with the invariants of ActiveFact, or has completed as
described by DoneFact. -/
theorem inflight_master {s s2 : Bus} {tr : List Label} (htr : Trace s tr s2) :
    ∀ i : Inflight, BusInv s → s.inflight = some i →
    ActiveFact i tr s2.inflight ∨ DoneFact i tr := by
  induction htr with
  | refl s =>
      intro i hw hinf
      left
      refine ⟨i, hinf, rfl, rfl, rfl, rfl, ⟨[], rfl, rfl⟩, ?_, fun t ht => ht, ?_,
        ?_, ?_, ?_⟩
      · intro p hp; cases hp
      · intro t ht; simp [pullsOf, ht]
      · intro id2 t e hmem; cases hmem
      · intro id2 l e hmem; cases hmem
      · intro x hx; cases hx
  | step hstep htr ih =>
      rename_i s s₁ s₂ lab tr'
      intro i hw hinf
      have hw1 := hw.step hstep
      cases hstep with
      | addListener l2 hd =>
          exact neutral_cons (fun rest => rfl) (fun rest => rfl)
            (fun id2 t e h => nomatch h) (fun id2 l3 e h => nomatch h)
            (fun x h => nomatch h) (ih i hw1 hinf)
      | setActiveTrue t =>
          exact neutral_cons (fun rest => rfl) (fun rest => rfl)
            (fun id2 t e h => nomatch h) (fun id2 l3 e h => nomatch h)
            (fun x h => nomatch h) (ih i hw1 hinf)
      | setActiveFalse t =>
          exact neutral_cons (fun rest => rfl) (fun rest => rfl)
            (fun id2 t e h => nomatch h) (fun id2 l3 e h => nomatch h)
            (fun x h => nomatch h) (ih i hw1 hinf)
      | setSa t h =>
          exact neutral_cons (fun rest => rfl) (fun rest => rfl)
            (fun id2 t e h => nomatch h) (fun id2 l3 e h => nomatch h)
            (fun x h => nomatch h) (ih i hw1 hinf)
      | listenEnter t hmem =>
          exact neutral_cons (fun rest => rfl) (fun rest => rfl)
            (fun id2 t e h => nomatch h) (fun id2 l3 e h => nomatch h)
            (fun x h => nomatch h) (ih i hw1 hinf)
      | emitSilent t sig format args hd =>
          exact neutral_cons (fun rest => rfl) (fun rest => rfl)
            (fun id2 t e h => nomatch h) (fun id2 l3 e h => nomatch h)
            (fun x h => nomatch h) (ih i hw1 hinf)
      | destroy hd =>
          exact neutral_cons (fun rest => rfl) (fun rest => rfl)
            (fun id2 t e h => nomatch h) (fun id2 l3 e h => nomatch h)
            (fun x h => nomatch h) (ih i hw1 hinf)
      | release t hd hwmem =>
          exact neutral_cons (fun rest => rfl) (fun rest => rfl)
            (fun id2 t e h => nomatch h) (fun id2 l3 e h => nomatch h)
            (fun x h => nomatch h) (ih i hw1 hinf)
      | emitStart t sig lvl format args hd hnone hlvl =>
          rw [hnone] at hinf
          cases hinf
      | dispatchStep i0 l2 rest hi hto =>
          rw [hinf] at hi
          rw [Option.some_inj] at hi
          subst hi
          have hrec := ih { i with toDispatch := rest } hw1 rfl
          rcases hrec with
            ⟨i2, h1, h2, h3, h4, h5, ⟨ds, hds1, hds2⟩, h7, h8, h9, h10, h11, h12⟩ |
            ⟨tr1, tr2, heq, hd1, hp1, hc1, hl1, hdl1, hr1, ⟨d, b, hsp, hspd, hspb⟩,
              hp2, hd2, hr2⟩
          · left
            refine ⟨i2, h1, h2, h3, h4, h5, ⟨l2 :: ds, ?_, ?_⟩, ?_, h8, ?_, ?_, ?_, ?_⟩
            · rw [hto]
              rw [show ({ i with toDispatch := rest } : Inflight).toDispatch = rest
                from rfl] at hds1
              rw [hds1, List.cons_append]
            · rw [delivsOf_cons_delivered]
              simp only [if_pos rfl, List.singleton_append, List.map_cons]
              exact congrArg _ hds2
            · intro p hp
              rw [pullsOf_delivered] at hp
              exact h7 p hp
            · intro t ht
              rw [pullsOf_delivered]
              exact h9 t ht
            · intro id2 t e hmem
              rcases List.mem_cons.mp hmem with hh | hh
              · cases hh
              · exact h10 id2 t e hh
            · intro id2 l3 e hmem
              rcases List.mem_cons.mp hmem with hh | hh
              · injection hh
              · exact h11 id2 l3 e hh
            · intro x hx
              rcases List.mem_cons.mp hx with hh | hh
              · cases hh
              · exact h12 x hh
          · right
            refine ⟨Label.delivered i.id l2 i.event :: tr1, tr2,
              by rw [heq, List.cons_append], ?_, ?_, ?_, ?_, ?_, ?_,
              ⟨Label.delivered i.id l2 i.event :: d, b, by rw [hsp, List.cons_append],
                by rw [pullsOf_delivered]; exact hspd, hspb⟩, hp2, hd2, hr2⟩
            · rw [delivsOf_cons_delivered]
              simp only [if_pos rfl, List.singleton_append]
              rw [hto, List.map_cons]
              exact congrArg _ hd1
            · intro p hp
              rw [pullsOf_delivered] at hp
              exact hp1 p hp
            · intro t ht
              rw [pullsOf_delivered]
              exact hc1 t ht
            · intro id2 t e hmem
              rcases List.mem_cons.mp hmem with hh | hh
              · cases hh
              · exact hl1 id2 t e hh
            · intro id2 l3 e hmem
              rcases List.mem_cons.mp hmem with hh | hh
              · injection hh
              · exact hdl1 id2 l3 e hh
            · intro x hx
              rcases List.mem_cons.mp hx with hh | hh
              · cases hh
              · exact hr1 x hh
      | pull i0 t hi hto hpend hwait hd =>
          rw [hinf] at hi
          rw [Option.some_inj] at hi
          subst hi
          obtain ⟨hndact, hwin⟩ := hw
          obtain ⟨hidc, hsub, hndp, hlvl⟩ := hwin i hinf
          have hrec := ih { i with pending := i.pending.erase t } hw1 rfl
          have htne : t ∉ i.pending.erase t := fun hmem =>
            absurd ((hndp.mem_erase_iff).mp hmem).1 (by simp)
          rcases hrec with
            ⟨i2, h1, h2, h3, h4, h5, ⟨ds, hds1, hds2⟩, h7, h8, h9, h10, h11, h12⟩ |
            ⟨tr1, tr2, heq, hd1, hp1, hc1, hl1, hdl1, hr1, ⟨d, b, hsp, hspd, hspb⟩,
              hp2, hd2, hr2⟩
          · left
            rw [show ({ i with pending := i.pending.erase t } : Inflight).toDispatch =
              i.toDispatch from rfl, hto] at hds1
            obtain ⟨hds, hdt⟩ := List.append_eq_nil.mp hds1.symm
            subst hds
            refine ⟨i2, h1, h2, h3, h4, h5, ⟨[], by simp [hto, hdt], ?_⟩, ?_, ?_, ?_, ?_, ?_, ?_⟩
            · rw [delivsOf_listened]
              exact hds2
            · intro p hp
              rw [pullsOf_cons_listened_self] at hp
              rcases List.mem_cons.mp hp with hh | hh
              · rw [hh]
                exact ⟨hpend, rfl⟩
              · obtain ⟨hp1m, hp2m⟩ := h7 p hh
                exact ⟨List.mem_of_mem_erase hp1m, hp2m⟩
            · intro t2 ht2
              exact List.mem_of_mem_erase (h8 t2 ht2)
            · intro t2 ht2
              rw [pullsOf_cons_listened_self]
              by_cases hte : t2 = t
              · subst hte
                have hnm : (t2, i.event) ∉ pullsOf i.id tr' := fun hmem =>
                  absurd (h7 _ hmem).1 htne
                have h0 : (pullsOf i.id tr').count (t2, i.event) = 0 :=
                  List.count_eq_zero.mpr hnm
                have ht2n : t2 ∉ i2.pending := fun hmem => absurd (h8 t2 hmem) htne
                rw [List.count_cons_self, h0, if_neg ht2n]
              · have ht2e : t2 ∈ i.pending.erase t :=
                  (List.mem_erase_of_ne hte).mpr ht2
                have := h9 t2 ht2e
                rw [List.count_cons_of_ne (by simp [hte]), this]
            · intro id2 t2 e hmem
              rcases List.mem_cons.mp hmem with hh | hh
              · injection hh
              · exact h10 id2 t2 e hh
            · intro id2 l3 e hmem
              rcases List.mem_cons.mp hmem with hh | hh
              · cases hh
              · exact h11 id2 l3 e hh
            · intro x hx
              rcases List.mem_cons.mp hx with hh | hh
              · cases hh
              · exact h12 x hh
          · right
            refine ⟨Label.listened i.id t i.event :: tr1, tr2,
              by rw [heq, List.cons_append], ?_, ?_, ?_, ?_, ?_, ?_,
              ⟨[], Label.listened i.id t i.event :: tr1,
                by rw [List.nil_append], rfl, ?_⟩, hp2, hd2, hr2⟩
            · rw [delivsOf_listened]
              exact hd1
            · intro p hp
              rw [pullsOf_cons_listened_self] at hp
              rcases List.mem_cons.mp hp with hh | hh
              · rw [hh]
                exact ⟨hpend, rfl⟩
              · obtain ⟨hp1m, hp2m⟩ := hp1 p hh
                exact ⟨List.mem_of_mem_erase hp1m, hp2m⟩
            · intro t2 ht2
              rw [pullsOf_cons_listened_self]
              by_cases hte : t2 = t
              · subst hte
                have htne : t2 ∉ i.pending.erase t2 := fun hmem =>
                  absurd ((hndp.mem_erase_iff).mp hmem).1 (by simp)
                have hnm : (t2, i.event) ∉ pullsOf i.id tr1 := fun hmem =>
                  absurd (hp1 _ hmem).1 htne
                have h0 : (pullsOf i.id tr1).count (t2, i.event) = 0 :=
                  List.count_eq_zero.mpr hnm
                rw [List.count_cons_self, h0]
              · have ht2e : t2 ∈ i.pending.erase t :=
                  (List.mem_erase_of_ne hte).mpr ht2
                have := hc1 t2 ht2e
                rw [List.count_cons_of_ne (by simp [hte]), this]
            · intro id2 t2 e hmem
              rcases List.mem_cons.mp hmem with hh | hh
              · injection hh
              · exact hl1 id2 t2 e hh
            · intro id2 l3 e hmem
              rcases List.mem_cons.mp hmem with hh | hh
              · cases hh
              · exact hdl1 id2 l3 e hh
            · intro x hx
              rcases List.mem_cons.mp hx with hh | hh
              · cases hh
              · exact hr1 x hh
            · rw [delivsOf_listened]
              rw [hd1, hto]
              rfl
      | emitReturn i0 hi hto hpend =>
          rw [hinf] at hi
          rw [Option.some_inj] at hi
          subst hi
          obtain ⟨hndact, hwin⟩ := hw
          obtain ⟨hidc, hsub, hndp, hlvl⟩ := hwin i hinf
          right
          obtain ⟨hp, hdl, hrr⟩ := dead_id htr i.id hw1 hidc (fun j hj => by cases hj)
          refine ⟨[], tr', rfl, by rw [hto]; rfl, ?_, ?_, ?_, ?_, ?_,
            ⟨[], [], rfl, rfl, rfl⟩, hp, hdl, hrr⟩
          · intro p hp2; cases hp2
          · intro t2 ht2
            rw [hpend] at ht2
            cases ht2
          · intro id2 t2 e hmem; cases hmem
          · intro id2 l3 e hmem; cases hmem
          · intro x hx; cases hx

theorem mem_delivsOf_of_delivered {id l2 : Nat} {e : Event} {tr : List Label}
    (h : Label.delivered id l2 e ∈ tr) : (l2, e) ∈ delivsOf id tr := by
  induction tr with
  | nil => cases h
  | cons l rest ih =>
      rcases List.mem_cons.mp h with h1 | h2
      · subst h1
        rw [delivsOf_cons_delivered]
        simp
      · have := ih h2
        cases l with
        | delivered id2 l3 e2 =>
            rw [delivsOf_cons_delivered]
            exact List.mem_append_right _ this
        | _ => simpa [delivsOf, List.filterMap_cons] using this

/-- A step whose label is not a set_sa call of thread A leaves the SA
binding of thread A unchanged. -/
theorem saOf_step_other {s s' : Bus} {A : Nat} {lab : Label}
    (hstep : Step s lab s') (hnb : ∀ h, lab ≠ Label.boundSa A h) :
    s'.saOf A = s.saOf A := by
  cases hstep with
  | setSa t h =>
      have htA : t ≠ A := fun he => hnb h (by rw [he])
      show (if A = t then h else s.saOf A) = s.saOf A
      rw [if_neg (fun he => htA he.symm)]
  | _ => rfl

/-- Along a trace without set_sa calls of thread A, the SA binding of A
is constant. -/
theorem saOf_trace {s s2 : Bus} {tr : List Label} (htr : Trace s tr s2) :
    ∀ A, (∀ h, Label.boundSa A h ∉ tr) → s2.saOf A = s.saOf A := by
  induction htr with
  | refl s => intro A hnb; rfl
  | step hstep htr ih =>
      rename_i s s₁ s₂ lab tr'
      intro A hnb
      have hhead : ∀ h, lab ≠ Label.boundSa A h := by
        intro h he
        exact hnb h (by rw [he]; exact List.mem_cons_self _ _)
      have htail : ∀ h, Label.boundSa A h ∉ tr' := by
        intro h hmem
        exact hnb h (List.mem_cons_of_mem _ hmem)
      rw [ih A htail, saOf_step_other hstep hhead]

/-- Every emission start by thread A in a trace without set_sa calls of
A carries the SA binding A had at the start of the trace. -/
theorem emit_sa {s s2 : Bus} {tr : List Label} (htr : Trace s tr s2) :
    ∀ A, (∀ h, Label.boundSa A h ∉ tr) →
    ∀ id ev S L, Label.emitStart id A ev S L ∈ tr → ev.ike_sa = s.saOf A := by
  induction htr with
  | refl s => intro A hnb id ev S L hmem; cases hmem
  | step hstep htr ih =>
      rename_i s s₁ s₂ lab tr'
      intro A hnb id ev S L hmem
      have hhead : ∀ h, lab ≠ Label.boundSa A h := by
        intro h he
        exact hnb h (by rw [he]; exact List.mem_cons_self _ _)
      have htail : ∀ h, Label.boundSa A h ∉ tr' := by
        intro h hmem2
        exact hnb h (List.mem_cons_of_mem _ hmem2)
      rcases List.mem_cons.mp hmem with hh | hh
      · rw [← hh] at hstep
        cases hstep
        rfl
      · rw [ih A htail id ev S L hh, saOf_step_other hstep hhead]

/-- After the bus is destroyed, no trace contains a listener
registration, an eligible emission start, or a silent emission
return. -/
theorem destroyed_trace {s s2 : Bus} {tr : List Label} (htr : Trace s tr s2) :
    s.destroyed = true →
    (∀ l, Label.addedListener l ∉ tr) ∧
    (∀ id em ev S L, Label.emitStart id em ev S L ∉ tr) ∧
    (∀ t sig format args, Label.silentReturn t sig format args ∉ tr) := by
  induction htr with
  | refl s =>
      intro hd
      exact ⟨fun l => List.not_mem_nil _, fun a b c d e => List.not_mem_nil _,
        fun a b c d => List.not_mem_nil _⟩
  | step hstep htr ih =>
      rename_i s s₁ s₂ lab tr'
      intro hd
      obtain ⟨h1, h2, h3⟩ := ih (hstep.destroyed_mono hd)
      refine ⟨?_, ?_, ?_⟩
      · intro l hmem
        rcases List.mem_cons.mp hmem with hh | hh
        · rw [← hh] at hstep
          cases hstep with
          | addListener l hd2 => rw [hd] at hd2; cases hd2
        · exact h1 l hh
      · intro id em ev S L hmem
        rcases List.mem_cons.mp hmem with hh | hh
        · rw [← hh] at hstep
          cases hstep with
          | emitStart t sig lvl format args hd2 hnone hlvl => rw [hd] at hd2; cases hd2
        · exact h2 id em ev S L hh
      · intro t sig format args hmem
        rcases List.mem_cons.mp hmem with hh | hh
        · rw [← hh] at hstep
          cases hstep with
          | emitSilent t sig format args hd2 => rw [hd] at hd2; cases hd2
        · exact h3 t sig format args hh

/-! ## Claim theorems -/

/-- C3 counterexample: at the boundary value DBG_MAX itself, SIG_TYPE
does not map to SIG_ANY: the macro compares with strict greater-than,
so SIG_TYPE(DBG_MAX) = DBG_MAX = 11, which also lies outside
0..(DBG_MAX-1). -/
theorem claim_classification_counterexample :
    SIG_TYPE DBG_MAX ≠ SIG_ANY ∧ SIG_TYPE DBG_MAX = DBG_MAX ∧
    ¬ SIG_TYPE DBG_MAX ≤ DBG_MAX - 1 := by
  decide

/-- C3 (amended): for every signal strictly beyond DBG_MAX, SIG_TYPE
yields SIG_ANY; for every signal at or below DBG_MAX (the strict
comparison keeps the bound itself) it returns the signal unchanged;
hence over the enumeration range 0..SIG_MAX the result lies in
0..DBG_MAX, with DBG_MAX itself the only value mapped outside
0..(DBG_MAX-1). -/
theorem claim_classification_amended (s : Int) :
    (DBG_MAX < s → SIG_TYPE s = SIG_ANY) ∧
    (s ≤ DBG_MAX → SIG_TYPE s = s) ∧
    (0 ≤ s → s ≤ SIG_MAX → 0 ≤ SIG_TYPE s ∧ SIG_TYPE s ≤ DBG_MAX) := by
  unfold SIG_TYPE SIG_ANY DBG_MAX SIG_MAX
  refine ⟨fun h => ?_, fun h => ?_, fun h0 h1 => ?_⟩
  · rw [if_pos h]
  · rw [if_neg (not_lt.mpr h)]
  · constructor <;> split <;> omega

/-- Witness for the amended C3 at concrete signals. -/
theorem claim_classification_amended_witness :
    SIG_TYPE IKE_UP_START = SIG_ANY ∧ SIG_TYPE DBG_IKE = DBG_IKE ∧
    (0 ≤ SIG_TYPE CHILD_UP_START ∧ SIG_TYPE CHILD_UP_START ≤ DBG_MAX) :=
  ⟨(claim_classification_amended IKE_UP_START).1 (by decide),
   (claim_classification_amended DBG_IKE).2.1 (by decide),
   (claim_classification_amended CHILD_UP_START).2.2 (by decide) (by decide)⟩

/-- C9: SIG_TYPE is idempotent on the signal enumeration, and every
lifecycle signal IKE_UP_START..CHILD_UNROUTE_FAILED is strictly above
DBG_MAX and collapses to the single type SIG_ANY = 0. -/
theorem claim_sig_type_idempotent (s : Int) :
    (0 ≤ s → s ≤ SIG_MAX → SIG_TYPE (SIG_TYPE s) = SIG_TYPE s) ∧
    (IKE_UP_START ≤ s → s ≤ CHILD_UNROUTE_FAILED →
      DBG_MAX < s ∧ SIG_TYPE s = SIG_ANY ∧ SIG_ANY = 0) := by
  refine ⟨fun h0 h1 => ?_, fun h0 h1 => ?_⟩
  · unfold SIG_TYPE SIG_ANY DBG_MAX
    by_cases h : (11 : Int) < s <;> simp [h]
  · refine ⟨by unfold DBG_MAX at *; unfold IKE_UP_START at h0; omega, ?_, rfl⟩
    unfold SIG_TYPE
    rw [if_pos (by unfold DBG_MAX IKE_UP_START at *; omega)]

/-- Witness for C9 at a concrete lifecycle signal. -/
theorem claim_sig_type_idempotent_witness :
    SIG_TYPE (SIG_TYPE CHILD_REKEY_FAILED) = SIG_TYPE CHILD_REKEY_FAILED ∧
    (DBG_MAX < CHILD_REKEY_FAILED ∧ SIG_TYPE CHILD_REKEY_FAILED = SIG_ANY ∧
      SIG_ANY = 0) :=
  ⟨(claim_sig_type_idempotent CHILD_REKEY_FAILED).1 (by decide) (by decide),
   (claim_sig_type_idempotent CHILD_REKEY_FAILED).2 (by decide) (by decide)⟩

/-- C10: LEVEL_SILENT is the distinct negative sentinel -1, the numeric
levels LEVEL_0..LEVEL_4 are 0..4 with LEVEL_AUDIT aliasing LEVEL_0,
and over the level_t enumeration the eligibility test
level != LEVEL_SILENT coincides with level >= 0. -/
theorem claim_silent_sentinel :
    LEVEL_SILENT = -1 ∧ LEVEL_0 = 0 ∧ LEVEL_1 = 1 ∧ LEVEL_2 = 2 ∧
    LEVEL_3 = 3 ∧ LEVEL_4 = 4 ∧ LEVEL_AUDIT = LEVEL_0 ∧
    LEVEL_SILENT ≠ LEVEL_0 ∧ LEVEL_SILENT ≠ LEVEL_1 ∧
    LEVEL_SILENT ≠ LEVEL_2 ∧ LEVEL_SILENT ≠ LEVEL_3 ∧
    LEVEL_SILENT ≠ LEVEL_4 ∧
    (∀ l ∈ level_t_values,
      ((eligible l = true) ↔ 0 ≤ l) ∧ ((l ≠ LEVEL_SILENT) ↔ 0 ≤ l)) := by
  decide

/-- Witness for C10 at the concrete level LEVEL_2. -/
theorem claim_silent_sentinel_witness :
    ((eligible LEVEL_2 = true) ↔ 0 ≤ LEVEL_2) ∧
    ((LEVEL_2 ≠ LEVEL_SILENT) ↔ 0 ≤ LEVEL_2) :=
  claim_silent_sentinel.2.2.2.2.2.2.2.2.2.2.2.2 LEVEL_2 (by decide)

/-- C8: bus_t.signal and bus_t.vsignal are void and signal no error to
the caller: on every input the modelled call produces an ok result,
never an error, and vsignal is signal with the arguments
pre-collected. -/
theorem claim_no_failure_results (s : Bus) (t : Nat) (sig lvl : Int)
    (format : String) (args : List String) :
    (∃ r, signalCall s t sig lvl format args = Except.ok r) ∧
    vsignalCall s t sig lvl format args = signalCall s t sig lvl format args := by
  refine ⟨?_, rfl⟩
  unfold signalCall
  split
  · exact ⟨_, rfl⟩
  · split
    · exact ⟨_, rfl⟩
    · exact ⟨_, rfl⟩

/-- C2: the silence gate.  The eligibility of an emission depends only
on the level and is false exactly at LEVEL_SILENT; a LEVEL_SILENT
signal call is a single enabled step that leaves the bus unchanged
regardless of any in-flight barrier (it returns immediately without
blocking on dispatch or the barrier); no passive delivery and no
completed listen() ever carries a LEVEL_SILENT Event; and the function
model of signal returns at once with only the silent-return label. -/
theorem claim_silence_gate :
    (∀ l : Int, eligible l = false ↔ l = LEVEL_SILENT) ∧
    (∀ (s : Bus) (t : Nat) (sig : Int) (format : String) (args : List String),
      s.destroyed = false → Step s (.silentReturn t sig format args) s) ∧
    (∀ (s s' : Bus) (lab : Label), BusInv s → Step s lab s' →
      ∀ id x e, (lab = .delivered id x e ∨ lab = .listened id x e) →
        e.level ≠ LEVEL_SILENT) ∧
    (∀ (s : Bus) (t : Nat) (sig : Int) (format : String) (args : List String),
      s.destroyed = false →
      signalCall s t sig LEVEL_SILENT format args =
        Except.ok (s, [.silentReturn t sig format args])) := by
  refine ⟨?_, ?_, ?_, ?_⟩
  · intro l
    unfold eligible
    simp
  · intro s t sig format args hd
    exact Step.emitSilent s t sig format args hd
  · intro s s' lab hw hstep id x e hor
    obtain ⟨hnd, hin⟩ := hw
    rcases hor with h | h
    · subst h
      cases hstep with
      | dispatchStep i l2 rest hi hto => exact (hin i hi).2.2.2
    · subst h
      cases hstep with
      | pull i t2 hi hto hp hwait hd => exact (hin i hi).2.2.2
  · intro s t sig format args hd
    unfold signalCall
    rw [if_neg (by rw [hd]; exact Bool.false_ne_true), if_pos rfl]

/-- A fresh empty bus used to instantiate the claim theorems. -/
def busA : Bus := ⟨[], [], fun _ => none, [], none, 0, false⟩

/-- A concrete eligible Event emitted by thread 3. -/
def evB : Event := ⟨IKE_UP_START, LEVEL_0, 3, none, "m", []⟩

/-- A bus with one passive listener, thread 4 active and waiting, and
the emission of evB by thread 3 in flight. -/
def busB : Bus :=
  ⟨[5], [4], fun _ => none, [4], some ⟨0, 3, evB, [4], [5], [4]⟩, 1, false⟩

/-- Witness for C2: the silent step is enabled and inert on a concrete
bus, and a concrete passive delivery carries a non-silent level. -/
theorem claim_silence_gate_witness :
    Step busA (.silentReturn 7 DBG_IKE "msg" []) busA ∧
    signalCall busA 7 DBG_IKE LEVEL_SILENT "msg" [] =
      Except.ok (busA, [.silentReturn 7 DBG_IKE "msg" []]) ∧
    evB.level ≠ LEVEL_SILENT := by
  have hw : BusInv busB := by
    refine ⟨by decide, ?_⟩
    intro i h
    have h2 : (⟨0, 3, evB, [4], [5], [4]⟩ : Inflight) = i := Option.some_inj.mp h
    subst h2
    exact ⟨by decide, by decide, by decide, by decide⟩
  have hstep : Step busB (.delivered 0 5 evB)
      { busB with inflight := some ⟨0, 3, evB, [4], [], [4]⟩ } :=
    Step.dispatchStep busB ⟨0, 3, evB, [4], [5], [4]⟩ 5 [] rfl rfl
  exact ⟨claim_silence_gate.2.1 busA 7 DBG_IKE "msg" [] rfl,
    claim_silence_gate.2.2.2 busA 7 DBG_IKE "msg" [] rfl,
    claim_silence_gate.2.2.1 busB _ _ hw hstep 0 5 evB (Or.inl rfl)⟩

/-- C7: thread-context isolation of set_sa.  A set_sa call by thread A
never changes the binding of any other thread B; within one thread the
binding is last-write-wins; every emission carries the SA binding of
its emitting thread at emission time; and after thread A holds the
binding none (as after set_sa(NULL)), every subsequent emission by A
in a trace without further set_sa calls by A carries no
security-association handle. -/
theorem claim_context_isolation :
    (∀ (s s' : Bus) (A : Nat) (h : Option Nat) (B : Nat),
      Step s (.boundSa A h) s' → B ≠ A → s'.saOf B = s.saOf B) ∧
    (∀ (s s' : Bus) (A : Nat) (h : Option Nat),
      Step s (.boundSa A h) s' → s'.saOf A = h) ∧
    (∀ (s s' : Bus) (id em : Nat) (ev : Event) (S L : List Nat),
      Step s (.emitStart id em ev S L) s' → ev.ike_sa = s.saOf em) ∧
    (∀ (s s2 : Bus) (tr : List Label) (A : Nat),
      Trace s tr s2 → s.saOf A = none → (∀ h, Label.boundSa A h ∉ tr) →
      ∀ id ev S L, Label.emitStart id A ev S L ∈ tr → ev.ike_sa = none) := by
  refine ⟨?_, ?_, ?_, ?_⟩
  · intro s s' A h B hstep hBA
    cases hstep
    show (if B = A then h else s.saOf B) = s.saOf B
    rw [if_neg hBA]
  · intro s s' A h hstep
    cases hstep
    show (if A = A then h else s.saOf A) = h
    rw [if_pos rfl]
  · intro s s' id em ev S L hstep
    cases hstep
    rfl
  · intro s s2 tr A htr hsa hnb id ev S L hmem
    exact (emit_sa htr A hnb id ev S L hmem).trans hsa

/-- A concrete eligible Event emitted by thread 3 with no SA bound. -/
def evA : Event := ⟨DBG_IKE, LEVEL_1, 3, none, "m", []⟩

/-- The bus busA after thread 3 started emitting evA. -/
def busA1 : Bus := { busA with inflight := some ⟨0, 3, evA, [], [], []⟩, counter := 1 }

/-- Witness for C7 on concrete states: rebinding thread 3 leaves
thread 2 untouched and is last-write-wins, and a concrete emission by
thread 3 with binding none carries no handle. -/
theorem claim_context_isolation_witness :
    ({ busA with saOf := fun u => if u = 3 then some 9 else busA.saOf u }).saOf 3
      = some 9 ∧
    ({ busA with saOf := fun u => if u = 3 then some 9 else busA.saOf u }).saOf 2
      = busA.saOf 2 ∧
    evA.ike_sa = none := by
  have hstart : Step busA (.emitStart 0 3 evA [] []) busA1 :=
    Step.emitStart busA 3 DBG_IKE LEVEL_1 "m" [] rfl rfl (by decide)
  have htr : Trace busA [Label.emitStart 0 3 evA [] []] busA1 :=
    Trace.step hstart (Trace.refl busA1)
  have hnb : ∀ h, Label.boundSa 3 h ∉ [Label.emitStart 0 3 evA [] []] := by
    intro h hmem
    rcases List.mem_cons.mp hmem with hh | hh
    · cases hh
    · cases hh
  exact ⟨claim_context_isolation.2.1 busA _ 3 (some 9) (Step.setSa busA 3 (some 9)),
    claim_context_isolation.1 busA _ 3 (some 9) 2 (Step.setSa busA 3 (some 9))
      (by decide),
    claim_context_isolation.2.2.2 busA busA1 [Label.emitStart 0 3 evA [] []] 3 htr
      rfl hnb 0 evA [] [] (List.mem_cons_self _ _)⟩

/-- C6: clean shutdown.  destroy is a single enabled step on a live
bus (safe to invoke with threads blocked in listen()); after destroy,
every thread blocked in listen() has the sentinel-returning release
step enabled, which is how its listen() call returns the terminal
sentinel instead of an Event; and no trace from a destroyed bus
contains a listener registration or any emission, eligible or
silent. -/
theorem claim_clean_shutdown :
    (∀ s : Bus, s.destroyed = false →
      Step s .busDestroyed { s with destroyed := true }) ∧
    (∀ (s : Bus) (t : Nat), s.destroyed = true → t ∈ s.waiting →
      Step s (.releasedSentinel t) { s with waiting := s.waiting.erase t }) ∧
    (∀ (s s2 : Bus) (tr : List Label), s.destroyed = true → Trace s tr s2 →
      (∀ l, Label.addedListener l ∉ tr) ∧
      (∀ id em ev S L, Label.emitStart id em ev S L ∉ tr) ∧
      (∀ t sig format args, Label.silentReturn t sig format args ∉ tr)) :=
  ⟨fun s hd => Step.destroy s hd,
   fun s t hd hw => Step.release s t hd hw,
   fun _ _ _ hd htr => destroyed_trace htr hd⟩

/-- A destroyed bus with thread 2 still blocked in listen(). -/
def busD : Bus := ⟨[], [], fun _ => none, [2], none, 0, true⟩

/-- Witness for C6 on concrete states. -/
theorem claim_clean_shutdown_witness :
    Step busA .busDestroyed { busA with destroyed := true } ∧
    Step busD (.releasedSentinel 2) { busD with waiting := busD.waiting.erase 2 } ∧
    Label.addedListener 0 ∉ ([] : List Label) :=
  ⟨claim_clean_shutdown.1 busA rfl,
   claim_clean_shutdown.2.1 busD 2 rfl (by decide),
   (claim_clean_shutdown.2.2 busD busD [] rfl (Trace.refl busD)).1 0⟩

/-- C1: barrier correctness.  For every eligible emission, if the
threads of S are in the must-wait set at the snapshot, then the
emitting call returns only after every thread of S has completed
exactly one listen() that returned exactly the emitted Event, and
every listen() completed during the barrier returned that Event and
came from a thread of S. -/
theorem claim_barrier_correctness {s s1 s2 : Bus} {id em : Nat} {ev : Event}
    {S L : List Nat} {tr : List Label}
    (hw : BusInv s) (hstart : Step s (.emitStart id em ev S L) s1)
    (htr : Trace s1 tr s2) (hret : ∃ x, Label.emitReturn id x ∈ tr) :
    ∃ tr1 tr2, tr = tr1 ++ Label.emitReturn id em :: tr2 ∧
      (∀ t ∈ S, (pullsOf id tr1).count (t, ev) = 1) ∧
      (∀ p ∈ pullsOf id tr, p.1 ∈ S ∧ p.2 = ev) ∧
      (∀ id2 t e, Label.listened id2 t e ∈ tr1 → id2 = id ∧ e = ev) ∧
      tr.count (Label.emitReturn id em) = 1 := by
  cases hstart with
  | emitStart t sig lvl format args hd hnone hlvl =>
  have hstep := Step.emitStart s em sig lvl format args hd hnone hlvl
  have hw1 := hw.step hstep
  rcases inflight_master htr ⟨s.counter, em, ⟨sig, lvl, em, s.saOf em, format, args⟩,
      s.activeSet, s.listeners, s.activeSet⟩ hw1 rfl with
    ⟨i2, h1, h2, h3, h4, h5, hds, h7, h8, h9, h10, h11, h12⟩ |
    ⟨tr1, tr2, heq, hd1, hp1, hc1, hl1, hdl1, hr1, hsplit, hp2, hd2, hr2⟩
  · obtain ⟨x, hx⟩ := hret
    exact absurd hx (h12 x)
  · refine ⟨tr1, tr2, heq, hc1, ?_, ?_, ?_⟩
    · intro p hp
      rw [heq, pullsOf_append] at hp
      rcases List.mem_append.mp hp with hh | hh
      · exact hp1 p hh
      · rw [pullsOf_emitReturn, hp2] at hh
        cases hh
    · intro id2 t2 e hmem
      have hid := hl1 id2 t2 e hmem
      subst hid
      exact ⟨rfl, (hp1 (t2, e) (mem_pullsOf_of_listened hmem)).2⟩
    · have hz1 : List.count (Label.emitReturn s.counter em) tr1 = 0 :=
        List.count_eq_zero.mpr (hr1 em)
      have hz2 : List.count (Label.emitReturn s.counter em) tr2 = 0 :=
        List.count_eq_zero.mpr (hr2 em)
      rw [heq, List.count_append, hz1, List.count_cons_self, hz2]

/-- A concrete eligible Event emitted by thread 1. -/
def evW : Event := ⟨IKE_UP_START, LEVEL_0, 1, none, "w", []⟩

/-- A bus with no passive listener and thread 0 active and blocked in
listen(). -/
def busW : Bus := ⟨[], [0], fun _ => none, [0], none, 0, false⟩

/-- busW after thread 1 started emitting evW. -/
def busW1 : Bus := { busW with inflight := some ⟨0, 1, evW, [0], [], [0]⟩, counter := 1 }

/-- busW1 after thread 0 consumed evW through listen(). -/
def busW2 : Bus := ⟨[], [0], fun _ => none, [], some ⟨0, 1, evW, [0], [], []⟩, 1, false⟩

/-- busW2 after the emitting call of thread 1 returned. -/
def busW3 : Bus := ⟨[], [0], fun _ => none, [], none, 1, false⟩

/-- Witness for C1: the concrete two-step barrier on busW. -/
theorem claim_barrier_correctness_witness :
    ∃ tr1 tr2,
      [Label.listened 0 0 evW, Label.emitReturn 0 1] =
        tr1 ++ Label.emitReturn 0 1 :: tr2 ∧
      (∀ t ∈ ([0] : List Nat), (pullsOf 0 tr1).count (t, evW) = 1) ∧
      (∀ p ∈ pullsOf 0 [Label.listened 0 0 evW, Label.emitReturn 0 1],
        p.1 ∈ ([0] : List Nat) ∧ p.2 = evW) ∧
      (∀ id2 t e, Label.listened id2 t e ∈ tr1 → id2 = 0 ∧ e = evW) ∧
      List.count (Label.emitReturn 0 1)
        [Label.listened 0 0 evW, Label.emitReturn 0 1] = 1 := by
  have hw : BusInv busW := ⟨by decide, fun i h => nomatch h⟩
  have hstart : Step busW (.emitStart 0 1 evW [0] []) busW1 :=
    Step.emitStart busW 1 IKE_UP_START LEVEL_0 "w" [] rfl rfl (by decide)
  have hpull : Step busW1 (.listened 0 0 evW) busW2 :=
    Step.pull busW1 ⟨0, 1, evW, [0], [], [0]⟩ 0 rfl rfl (by decide) (by decide) rfl
  have hreturn : Step busW2 (.emitReturn 0 1) busW3 :=
    Step.emitReturn busW2 ⟨0, 1, evW, [0], [], []⟩ rfl rfl rfl
  have htr : Trace busW1 [Label.listened 0 0 evW, Label.emitReturn 0 1] busW3 :=
    Trace.step hpull (Trace.step hreturn (Trace.refl busW3))
  exact claim_barrier_correctness hw hstart htr
    ⟨1, List.mem_cons_of_mem _ (List.mem_cons_self _ _)⟩

/-- C4: passive dispatch.  For every eligible emission that returns,
the dispatch snapshot is exactly the listeners registered before the
emission; before the emitting call returns, each of them received the
Event exactly once, in registration order; every delivery of the
emission carries the Event unchanged; and all deliveries precede every
completed listen() of the barrier. -/
theorem claim_passive_dispatch {s s1 s2 : Bus} {id em : Nat} {ev : Event}
    {S L : List Nat} {tr : List Label}
    (hw : BusInv s) (hstart : Step s (.emitStart id em ev S L) s1)
    (htr : Trace s1 tr s2) (hret : ∃ x, Label.emitReturn id x ∈ tr) :
    L = s.listeners ∧
    ∃ tr1 tr2, tr = tr1 ++ Label.emitReturn id em :: tr2 ∧
      delivsOf id tr1 = L.map (fun l => (l, ev)) ∧
      delivsOf id tr2 = [] ∧
      (∃ d b, tr1 = d ++ b ∧ pullsOf id d = [] ∧ delivsOf id b = []) ∧
      (∀ id2 l e, Label.delivered id2 l e ∈ tr1 → id2 = id ∧ e = ev) := by
  cases hstart with
  | emitStart t sig lvl format args hd hnone hlvl =>
  have hstep := Step.emitStart s em sig lvl format args hd hnone hlvl
  have hw1 := hw.step hstep
  rcases inflight_master htr ⟨s.counter, em, ⟨sig, lvl, em, s.saOf em, format, args⟩,
      s.activeSet, s.listeners, s.activeSet⟩ hw1 rfl with
    ⟨i2, h1, h2, h3, h4, h5, hds, h7, h8, h9, h10, h11, h12⟩ |
    ⟨tr1, tr2, heq, hd1, hp1, hc1, hl1, hdl1, hr1, hsplit, hp2, hd2, hr2⟩
  · obtain ⟨x, hx⟩ := hret
    exact absurd hx (h12 x)
  · refine ⟨rfl, tr1, tr2, heq, hd1, hd2, hsplit, ?_⟩
    intro id2 l e hmem
    have hid := hdl1 id2 l e hmem
    subst hid
    refine ⟨rfl, ?_⟩
    have hmemd : (l, e) ∈ delivsOf s.counter tr1 := mem_delivsOf_of_delivered hmem
    rw [hd1] at hmemd
    rcases List.mem_map.mp hmemd with ⟨x, hx, hxe⟩
    exact (congrArg Prod.snd hxe).symm

/-- A bus with passive listener 5 registered and thread 4 active and
blocked in listen(). -/
def busV : Bus := ⟨[5], [4], fun _ => none, [4], none, 0, false⟩

/-- A concrete eligible Event emitted by thread 3 on busV. -/
def evV : Event := ⟨CHILD_UP_SUCCESS, LEVEL_1, 3, none, "v", []⟩

/-- busV after thread 3 started emitting evV. -/
def busV1 : Bus := { busV with inflight := some ⟨0, 3, evV, [4], [5], [4]⟩, counter := 1 }

/-- busV1 after listener 5 was invoked. -/
def busV2 : Bus := { busV with inflight := some ⟨0, 3, evV, [4], [], [4]⟩, counter := 1 }

/-- busV2 after thread 4 consumed evV through listen(). -/
def busV3 : Bus := ⟨[5], [4], fun _ => none, [], some ⟨0, 3, evV, [4], [], []⟩, 1, false⟩

/-- busV3 after the emitting call of thread 3 returned. -/
def busV4 : Bus := ⟨[5], [4], fun _ => none, [], none, 1, false⟩

/-- Witness for C4: the concrete dispatch-then-barrier cycle on busV. -/
theorem claim_passive_dispatch_witness :
    ([5] : List Nat) = busV.listeners ∧
    ∃ tr1 tr2,
      [Label.delivered 0 5 evV, Label.listened 0 4 evV, Label.emitReturn 0 3] =
        tr1 ++ Label.emitReturn 0 3 :: tr2 ∧
      delivsOf 0 tr1 = ([5] : List Nat).map (fun l => (l, evV)) ∧
      delivsOf 0 tr2 = [] ∧
      (∃ d b, tr1 = d ++ b ∧ pullsOf 0 d = [] ∧ delivsOf 0 b = []) ∧
      (∀ id2 l e, Label.delivered id2 l e ∈ tr1 → id2 = 0 ∧ e = evV) := by
  have hw : BusInv busV := ⟨by decide, fun i h => nomatch h⟩
  have hstart : Step busV (.emitStart 0 3 evV [4] [5]) busV1 :=
    Step.emitStart busV 3 CHILD_UP_SUCCESS LEVEL_1 "v" [] rfl rfl (by decide)
  have hdisp : Step busV1 (.delivered 0 5 evV) busV2 :=
    Step.dispatchStep busV1 ⟨0, 3, evV, [4], [5], [4]⟩ 5 [] rfl rfl
  have hpull : Step busV2 (.listened 0 4 evV) busV3 :=
    Step.pull busV2 ⟨0, 3, evV, [4], [], [4]⟩ 4 rfl rfl (by decide) (by decide) rfl
  have hreturn : Step busV3 (.emitReturn 0 3) busV4 :=
    Step.emitReturn busV3 ⟨0, 3, evV, [4], [], []⟩ rfl rfl rfl
  have htr : Trace busV1
      [Label.delivered 0 5 evV, Label.listened 0 4 evV, Label.emitReturn 0 3]
      busV4 :=
    Trace.step hdisp (Trace.step hpull (Trace.step hreturn (Trace.refl busV4)))
  exact claim_passive_dispatch hw hstart htr
    ⟨3, List.mem_cons_of_mem _ (List.mem_cons_of_mem _ (List.mem_cons_self _ _))⟩

/-- C5: snapshot semantics.  The must-wait snapshot of an emission is
exactly the must-wait set at the moment the emission begins; a thread
outside that snapshot never completes a listen() for that emission, no
matter what it does afterwards (late join excluded); a
set_listen_state(FALSE) call leaves an in-flight emission record,
including its pending set, untouched while removing the thread from
the must-wait set for future emissions; and a thread still pending in
an in-flight emission must complete its listen() for that Event before
the emitting call can return. -/
theorem claim_snapshot_semantics :
    (∀ (s s1 : Bus) (id em : Nat) (ev : Event) (S L : List Nat),
      Step s (.emitStart id em ev S L) s1 →
      S = s.activeSet ∧ s1.inflight = some ⟨id, em, ev, S, L, S⟩) ∧
    (∀ (s s1 s2 : Bus) (id em : Nat) (ev : Event) (S L : List Nat)
      (tr : List Label) (t : Nat),
      BusInv s → Step s (.emitStart id em ev S L) s1 → Trace s1 tr s2 →
      t ∉ S → ∀ e, Label.listened id t e ∉ tr) ∧
    (∀ (s s' : Bus) (t : Nat) (i : Inflight), s.inflight = some i →
      Step s (.setActive t false) s' →
      s'.inflight = some i ∧ s'.activeSet = s.activeSet.erase t) ∧
    (∀ (s s2 : Bus) (tr : List Label) (i : Inflight) (t : Nat),
      BusInv s → s.inflight = some i → t ∈ i.pending → Trace s tr s2 →
      (∃ x, Label.emitReturn i.id x ∈ tr) →
      Label.listened i.id t i.event ∈ tr) := by
  refine ⟨?_, ?_, ?_, ?_⟩
  · intro s s1 id em ev S L hstart
    cases hstart
    exact ⟨rfl, rfl⟩
  · intro s s1 s2 id em ev S L tr t hw hstart htr htS e hmem
    cases hstart with
    | emitStart t2 sig lvl format args hd hnone hlvl =>
    have hstep := Step.emitStart s em sig lvl format args hd hnone hlvl
    have hw1 := hw.step hstep
    rcases inflight_master htr ⟨s.counter, em, ⟨sig, lvl, em, s.saOf em, format, args⟩,
        s.activeSet, s.listeners, s.activeSet⟩ hw1 rfl with
      ⟨i2, h1, h2, h3, h4, h5, hds, h7, h8, h9, h10, h11, h12⟩ |
      ⟨tr1, tr2, heq, hd1, hp1, hc1, hl1, hdl1, hr1, hsplit, hp2, hd2, hr2⟩
    · have hpm : (t, e) ∈ pullsOf s.counter tr := mem_pullsOf_of_listened hmem
      exact htS (h7 (t, e) hpm).1
    · rw [heq] at hmem
      rcases List.mem_append.mp hmem with hh | hh
      · exact htS (hp1 (t, e) (mem_pullsOf_of_listened hh)).1
      · rcases List.mem_cons.mp hh with hh2 | hh2
        · cases hh2
        · have : (t, e) ∈ pullsOf s.counter tr2 := mem_pullsOf_of_listened hh2
          rw [hp2] at this
          cases this
  · intro s s' t i hinf hstep
    cases hstep
    exact ⟨hinf, rfl⟩
  · intro s s2 tr i t hw hinf hpend htr hret
    rcases inflight_master htr i hw hinf with
      ⟨i2, h1, h2, h3, h4, h5, hds, h7, h8, h9, h10, h11, h12⟩ |
      ⟨tr1, tr2, heq, hd1, hp1, hc1, hl1, hdl1, hr1, hsplit, hp2, hd2, hr2⟩
    · obtain ⟨x, hx⟩ := hret
      exact absurd hx (h12 x)
    · have hc := hc1 t hpend
      have hmem : (t, i.event) ∈ pullsOf i.id tr1 := by
        by_contra hno
        rw [List.count_eq_zero.mpr hno] at hc
        exact absurd hc (by decide)
      rw [heq]
      exact List.mem_append_left _ (listened_of_mem_pullsOf hmem)

/-- A bus like busB but with the dispatch phase of the in-flight
emission already complete. -/
def busC : Bus :=
  ⟨[5], [4], fun _ => none, [4], some ⟨0, 3, evB, [4], [], [4]⟩, 1, false⟩

/-- busC after thread 4 consumed evB through listen(). -/
def busC2 : Bus :=
  ⟨[5], [4], fun _ => none, [], some ⟨0, 3, evB, [4], [], []⟩, 1, false⟩

/-- busC2 after the emitting call of thread 3 returned. -/
def busC3 : Bus := ⟨[5], [4], fun _ => none, [], none, 1, false⟩

/-- Witness for C5 on concrete states: snapshot taken at start, a late
joiner (thread 7) excluded, set_listen_state(FALSE) leaving the
in-flight record untouched, and the pending thread 4 pulling before
the return. -/
theorem claim_snapshot_semantics_witness :
    (([0] : List Nat) = busW.activeSet ∧
      busW1.inflight = some ⟨0, 1, evW, [0], [], [0]⟩) ∧
    Label.listened 0 7 evW ∉ [Label.listened 0 0 evW, Label.emitReturn 0 1] ∧
    (({ busB with activeSet := busB.activeSet.erase 4 }).inflight =
        some ⟨0, 3, evB, [4], [5], [4]⟩ ∧
      ({ busB with activeSet := busB.activeSet.erase 4 }).activeSet =
        busB.activeSet.erase 4) ∧
    Label.listened 0 4 evB ∈ [Label.listened 0 4 evB, Label.emitReturn 0 3] := by
  have hwW : BusInv busW := ⟨by decide, fun i h => nomatch h⟩
  have hstartW : Step busW (.emitStart 0 1 evW [0] []) busW1 :=
    Step.emitStart busW 1 IKE_UP_START LEVEL_0 "w" [] rfl rfl (by decide)
  have hpullW : Step busW1 (.listened 0 0 evW) busW2 :=
    Step.pull busW1 ⟨0, 1, evW, [0], [], [0]⟩ 0 rfl rfl (by decide) (by decide) rfl
  have hreturnW : Step busW2 (.emitReturn 0 1) busW3 :=
    Step.emitReturn busW2 ⟨0, 1, evW, [0], [], []⟩ rfl rfl rfl
  have htrW : Trace busW1 [Label.listened 0 0 evW, Label.emitReturn 0 1] busW3 :=
    Trace.step hpullW (Trace.step hreturnW (Trace.refl busW3))
  have hwC : BusInv busC := by
    refine ⟨by decide, ?_⟩
    intro i h
    have h2 : (⟨0, 3, evB, [4], [], [4]⟩ : Inflight) = i := Option.some_inj.mp h
    subst h2
    exact ⟨by decide, by decide, by decide, by decide⟩
  have hpullC : Step busC (.listened 0 4 evB) busC2 :=
    Step.pull busC ⟨0, 3, evB, [4], [], [4]⟩ 4 rfl rfl (by decide) (by decide) rfl
  have hreturnC : Step busC2 (.emitReturn 0 3) busC3 :=
    Step.emitReturn busC2 ⟨0, 3, evB, [4], [], []⟩ rfl rfl rfl
  have htrC : Trace busC [Label.listened 0 4 evB, Label.emitReturn 0 3] busC3 :=
    Trace.step hpullC (Trace.step hreturnC (Trace.refl busC3))
  exact ⟨claim_snapshot_semantics.1 busW busW1 0 1 evW [0] [] hstartW,
    claim_snapshot_semantics.2.1 busW busW1 busW3 0 1 evW [0] [] _ 7 hwW hstartW
      htrW (by decide) evW,
    claim_snapshot_semantics.2.2.1 busB _ 4 ⟨0, 3, evB, [4], [5], [4]⟩ rfl
      (Step.setActiveFalse busB 4),
    claim_snapshot_semantics.2.2.2 busC busC3 _ ⟨0, 3, evB, [4], [], [4]⟩ 4 hwC rfl
      (by decide) htrC ⟨3, List.mem_cons_of_mem _ (List.mem_cons_self _ _)⟩⟩
